import Mathlib

/-!
Verification of the SimpleSQL in-memory engine (src/app.js).

The engine is shallowly embedded: each JavaScript method of the
SimpleSQL class becomes a Lean function over explicit state
(the catalog of tables).  The regex-driven structural parsers of the
source are embedded as executable matchers that follow the semantics of
the concrete JavaScript regular expressions used by the code
(leftmost match, greedy and lazy quantifiers with backtracking where it
can matter).  JavaScript numbers are modelled exactly: integer literals
as Int, decimal literals as Rat (IEEE rounding of parseFloat is not
modelled; no statement below depends on a float value).
-/

namespace SimpleSQL

/-- The apostrophe character used as the SQL string quote. -/
def quoteCh : Char := Char.ofNat 39

/-- The backslash character used as the escape marker. -/
def slashCh : Char := Char.ofNat 92

/-- JavaScript regex word character class, ASCII part. -/
def isWordChar (c : Char) : Bool := c.isAlpha || c.isDigit || c == '_'

/-- JavaScript whitespace (regex class and trim), common characters. -/
def isSpaceJS (c : Char) : Bool :=
  c == ' ' || c == '\t' || c == '\n' || c == '\r' ||
  c == Char.ofNat 11 || c == Char.ofNat 12 || c == Char.ofNat 160

/-- Characters matched by the regex dot (anything but line terminators). -/
def isDotChar (c : Char) : Bool :=
  !(c == '\n' || c == '\r' || c == Char.ofNat 8232 || c == Char.ofNat 8233)

/-- Embedding of String.prototype.trim. -/
def jsTrim (s : String) : String :=
  String.mk (((s.data.dropWhile isSpaceJS).reverse.dropWhile isSpaceJS).reverse)

/-- Embedding of String.prototype.toLowerCase (ASCII). -/
def strToLower (s : String) : String := String.mk (s.data.map Char.toLower)

/-- Does the character list start with the given lead list? -/
def leadMatches : List Char → List Char → Bool
  | _, [] => true
  | [], _ :: _ => false
  | c :: cs, p :: ps => c == p && leadMatches cs ps

/-- Embedding of String.prototype.startsWith. -/
def strLead (s lead : String) : Bool := leadMatches s.data lead.data

/-- Embedding of String.prototype.split with a separator comma. -/
def splitCommaGo : List Char → List Char → List String
  | [], cur => [String.mk cur.reverse]
  | c :: rest, cur =>
    if c == ',' then String.mk cur.reverse :: splitCommaGo rest []
    else splitCommaGo rest (c :: cur)

def splitComma (s : String) : List String := splitCommaGo s.data []

/-- Embedding of String.prototype.split on a whitespace-run regex.
The fuel argument only bounds the recursion; one character is consumed
per step, so an initial fuel of the length is enough. -/
def splitWSGo : Nat → List Char → List Char → List String
  | 0, _, cur => [String.mk cur.reverse]
  | _ + 1, [], cur => [String.mk cur.reverse]
  | fuel + 1, c :: rest, cur =>
    if isSpaceJS c then
      String.mk cur.reverse :: splitWSGo fuel (rest.dropWhile isSpaceJS) []
    else splitWSGo fuel rest (c :: cur)

def splitWS (s : String) : List String := splitWSGo (s.data.length + 1) s.data []

/-- A typed scalar value as stored in a row. -/
inductive Scalar
  | null
  | bool (b : Bool)
  | int (n : Int)
  | float (q : ℚ)
  | text (s : String)
deriving DecidableEq

/-- Drop one optional leading minus sign (the sign of a numeric literal). -/
def stripMinus (cs : List Char) : List Char :=
  match cs with
  | [] => []
  | c :: rest => if c = '-' then rest else c :: rest

/-- Test for the anchored integer literal regex of parseValue:
an optional minus sign, then one or more digits. -/
def intLitTest (cs : List Char) : Bool :=
  let body := stripMinus cs
  !body.isEmpty && body.all Char.isDigit

/-- The tail of a decimal literal once the leading digits are consumed:
a dot followed by one or more digits. -/
def floatTail : List Char → Bool
  | [] => false
  | c :: frac => c == '.' && (!frac.isEmpty && frac.all Char.isDigit)

/-- Test for the anchored decimal literal regex of parseValue:
an optional minus sign, zero or more digits, a dot, one or more digits. -/
def floatLitTest (cs : List Char) : Bool :=
  floatTail ((stripMinus cs).dropWhile Char.isDigit)

/-- Decimal value of a digit list. -/
def digitsVal (cs : List Char) : Nat :=
  cs.foldl (fun a c => a * 10 + (c.toNat - 48)) 0

/-- Embedding of parseInt on strings accepted by the integer regex. -/
def parseIntLit (cs : List Char) : Int :=
  if cs.headD ' ' = '-' then -(digitsVal (stripMinus cs) : Int)
  else (digitsVal cs : Int)

/-- Exact decimal value of an unsigned decimal literal body. -/
def floatBodyVal (cs : List Char) : ℚ :=
  let ip := cs.takeWhile Char.isDigit
  match cs.dropWhile Char.isDigit with
  | '.' :: frac => (digitsVal ip : ℚ) + (digitsVal frac : ℚ) / ((10 : ℚ) ^ frac.length)
  | _ => (digitsVal ip : ℚ)

/-- Embedding of parseFloat on strings accepted by the decimal regex. -/
def parseFloatLit (cs : List Char) : ℚ :=
  if cs.headD ' ' = '-' then -(floatBodyVal (stripMinus cs))
  else floatBodyVal cs

/-- Embedding of SimpleSQL.parseValue: trim, then infer null, booleans,
integer, decimal, and finally fall back to text. -/
def parseValue (value : String) : Scalar :=
  let v := jsTrim value
  if strToLower v = "null" then Scalar.null
  else if v = "true" then Scalar.bool true
  else if v = "false" then Scalar.bool false
  else if intLitTest v.data then Scalar.int (parseIntLit v.data)
  else if floatLitTest v.data then Scalar.float (parseFloatLit v.data)
  else Scalar.text v

/-- Embedding of the replace of the leading-open-paren / trailing-close-paren
regex at the top of SimpleSQL.parseValues. -/
def stripOuterParens (s : String) : String :=
  let cs := s.data
  let cs2 := if cs.headD ' ' = '(' then cs.tail else cs
  let cs3 := if cs2.getLast? = some ')' then cs2.dropLast else cs2
  String.mk cs3

/-- Character loop of SimpleSQL.parseValues: quote-aware, depth-unaware comma
splitter.  Arguments: remaining input, previous original character, inQuotes
flag, current token (reversed), accumulated values. -/
def parseValuesGo : List Char → Option Char → Bool → List Char → List Scalar → List Scalar
  | [], _, _, cur, vals =>
    if jsTrim (String.mk cur.reverse) ≠ "" then
      vals ++ [parseValue (jsTrim (String.mk cur.reverse))]
    else vals
  | c :: rest, prev, inQ, cur, vals =>
    if c == quoteCh && !(prev == some slashCh) then
      parseValuesGo rest (some c) (!inQ) cur vals
    else if !inQ && c == ',' then
      parseValuesGo rest (some c) inQ []
        (vals ++ [parseValue (jsTrim (String.mk cur.reverse))])
    else
      parseValuesGo rest (some c) inQ (c :: cur) vals

/-- Embedding of SimpleSQL.parseValues. -/
def parseValues (valuesStr : String) : List Scalar :=
  parseValuesGo (stripOuterParens valuesStr).data none false [] []

/-- Character loop of SimpleSQL.parseValuesSets: quote- and parenthesis-aware
comma splitter.  Arguments: remaining input, previous original character,
inQuotes flag, parenthesis depth, current chunk (reversed), accumulated sets.
Unlike parseValuesGo this loop appends quote characters to the chunk, and only
pushes a chunk whose trim is nonempty. -/
def parseValuesSetsGo : List Char → Option Char → Bool → Int → List Char →
    List (List Scalar) → List (List Scalar)
  | [], _, _, _, cur, sets =>
    if jsTrim (String.mk cur.reverse) ≠ "" then
      sets ++ [parseValues (jsTrim (String.mk cur.reverse))]
    else sets
  | c :: rest, prev, inQ, pc, cur, sets =>
    let inQ2 := if c == quoteCh && !(prev == some slashCh) then !inQ else inQ
    let pc2 := if !inQ2 then (if c == '(' then pc + 1 else if c == ')' then pc - 1 else pc)
               else pc
    if !inQ2 && pc2 == 0 && c == ',' then
      parseValuesSetsGo rest (some c) inQ2 pc2 []
        (if jsTrim (String.mk cur.reverse) ≠ "" then
          sets ++ [parseValues (jsTrim (String.mk cur.reverse))]
        else sets)
    else
      parseValuesSetsGo rest (some c) inQ2 pc2 (c :: cur) sets

/-- Embedding of SimpleSQL.parseValuesSets. -/
def parseValuesSets (valuesStr : String) : List (List Scalar) :=
  parseValuesSetsGo valuesStr.data none false 0 [] []

/-- A column of a table schema: name and declared type (default TEXT). -/
structure Column where
  name : String
  type : String
deriving DecidableEq

/-- A stored row. -/
abbrev Row := List Scalar

/-- A table: schema plus rows in insertion order. -/
structure Table where
  columns : List Column
  rows : List Row
deriving DecidableEq

/-- The catalog: the Map from lower-cased table name to table, in insertion
order, as an association list. -/
abbrev Catalog := List (String × Table)

/-- Embedding of Map.prototype.get composed with has. -/
def catGet (cat : Catalog) (n : String) : Option Table :=
  (cat.find? (fun p => p.1 == n)).map (fun p => p.2)

/-- Embedding of Map.prototype.set: replace in place, else append. -/
def catSet : Catalog → String → Table → Catalog
  | [], n, t => [(n, t)]
  | (m, u) :: rest, n, t =>
    if m = n then (n, t) :: rest else (m, u) :: catSet rest n t

/-- Embedding of Map.prototype.delete. -/
def catDelete : Catalog → String → Catalog
  | [], _ => []
  | (m, u) :: rest, n =>
    if m = n then rest else (m, u) :: catDelete rest n

/-- The uniform result shape of a successful SELECT. -/
structure ResultSet where
  columns : List String
  values : List Row
deriving DecidableEq

instance {ε α : Type} [DecidableEq ε] [DecidableEq α] : DecidableEq (Except ε α) :=
  fun a b =>
    match a, b with
    | Except.ok x, Except.ok y =>
      if h : x = y then isTrue (by rw [h]) else isFalse (by intro hc; cases hc; exact h rfl)
    | Except.error x, Except.error y =>
      if h : x = y then isTrue (by rw [h]) else isFalse (by intro hc; cases hc; exact h rfl)
    | Except.ok _, Except.error _ => isFalse (by intro hc; cases hc)
    | Except.error _, Except.ok _ => isFalse (by intro hc; cases hc)

/-- The errors thrown by SimpleSQL.exec, one constructor per distinct
message shape of the source. -/
inductive SqlError
  | invalidCreate
  | invalidInsert
  | invalidDrop
  | unknownTable (name : String)
  | columnCountMismatch (expected got : Nat)
  | unknownColumn (name : String)
  | unsupportedSelect
  | unsupportedFileRead
  | unsupportedQuery
deriving DecidableEq

/-! ### Embedded regex matchers

Each matcher implements one concrete regular expression of the source,
with JavaScript match semantics: the leftmost starting position wins, and
at a given position quantifiers are resolved greedily (or lazily for a
reluctant star) with backtracking wherever a shorter or longer take can
change the outcome for this pattern. -/

/-- Try a matcher at every position, leftmost first. -/
def searchFrom (f : List Char → Option α) : List Char → Option α
  | [] => f []
  | c :: cs =>
    match f (c :: cs) with
    | some r => some r
    | none => searchFrom f cs

/-- Consume a literal keyword, case-insensitively. -/
def dropCI : List Char → List Char → Option (List Char)
  | [], cs => some cs
  | _ :: _, [] => none
  | k :: ks, c :: cs => if c.toLower = k.toLower then dropCI ks cs else none

/-- Consume one or more whitespace characters, greedily. -/
def dropSpaces1 : List Char → Option (List Char)
  | [] => none
  | c :: rest => if isSpaceJS c then some (rest.dropWhile isSpaceJS) else none

/-- Greedy word-character capture. -/
def takeWord (cs : List Char) : List Char × List Char :=
  (cs.takeWhile isWordChar, cs.dropWhile isWordChar)

def countSpaces (cs : List Char) : Nat := (cs.takeWhile isSpaceJS).length

/-- Index of the last close parenthesis, for the greedy dot-star followed by
a literal close parenthesis. -/
def lastCloseIdx : List Char → Nat → Option Nat → Option Nat
  | [], _, best => best
  | c :: cs, i, best => lastCloseIdx cs (i + 1) (if c == ')' then some i else best)

/-- Greedy dot-star capture terminated by the last close parenthesis in the
line: returns the capture group. -/
def dotStarClose (cs : List Char) : Option (List Char) :=
  let pre := cs.takeWhile isDotChar
  match lastCloseIdx pre 0 none with
  | none => none
  | some k => some (pre.take k)

/-- One attempt of the CREATE TABLE regex at a fixed position. -/
def createTryAt (cs : List Char) : Option (String × String) := do
  let r1 ← dropCI "create".data cs
  let r2 ← dropSpaces1 r1
  let r3 ← dropCI "table".data r2
  let r4 ← dropSpaces1 r3
  let (w, r5) := takeWord r4
  if w.isEmpty then none else
  match r5.dropWhile isSpaceJS with
  | '(' :: r6 => (dotStarClose r6).map (fun g => (String.mk w, String.mk g))
  | _ => none

/-- Embedding of the CREATE TABLE regex match of the source. -/
def createMatch (q : String) : Option (String × String) := searchFrom createTryAt q.data

/-- One attempt of the INSERT INTO regex at a fixed position. -/
def insertTryAt (cs : List Char) : Option (String × String) := do
  let r1 ← dropCI "insert".data cs
  let r2 ← dropSpaces1 r1
  let r3 ← dropCI "into".data r2
  let r4 ← dropSpaces1 r3
  let (w, r5) := takeWord r4
  if w.isEmpty then none else
  let r6 ← dropSpaces1 r5
  let r7 ← dropCI "values".data r6
  match r7.dropWhile isSpaceJS with
  | '(' :: r8 => (dotStarClose r8).map (fun g => (String.mk w, String.mk g))
  | _ => none

/-- Embedding of the INSERT INTO regex match of the source. -/
def insertMatch (q : String) : Option (String × String) := searchFrom insertTryAt q.data

/-- One attempt of the DROP TABLE regex at a fixed position. -/
def dropTryAt (cs : List Char) : Option String := do
  let r1 ← dropCI "drop".data cs
  let r2 ← dropSpaces1 r1
  let r3 ← dropCI "table".data r2
  let r4 ← dropSpaces1 r3
  let (w, _) := takeWord r4
  if w.isEmpty then none else some (String.mk w)

/-- Embedding of the DROP TABLE regex match of the source. -/
def dropMatch (q : String) : Option String := searchFrom dropTryAt q.data

/-- Operator character class of the WHERE regex: only greater, less, equals
(the exclamation mark is not in the class). -/
def isOpChar (c : Char) : Bool := c == '>' || c == '<' || c == '='

/-- The value part of the WHERE regex: optional whitespace then a nonempty
dot-plus, with backtracking over how much whitespace is consumed. -/
def valueTake : Nat → List Char → Option (List Char)
  | 0, _ => none
  | j + 1, cs =>
    match cs.drop j with
    | [] => valueTake j cs
    | c :: rest => if isDotChar c then some ((c :: rest).takeWhile isDotChar)
                   else valueTake j cs

def valueAfter (cs : List Char) : Option (List Char) := valueTake (countSpaces cs + 1) cs

/-- Backtracking over the greedy operator-character run: the longest operator
take that still leaves a valid value wins. -/
def opLoop (w ops rest : List Char) : Nat → Option (String × String × String)
  | 0 => none
  | k + 1 =>
    match valueAfter (ops.drop (k + 1) ++ rest) with
    | some v => some (String.mk w, String.mk (ops.take (k + 1)), String.mk v)
    | none => opLoop w ops rest k

/-- One attempt of the WHERE condition regex at a fixed position. -/
def whereTryAt (cs : List Char) : Option (String × String × String) :=
  let (w, r1) := takeWord cs
  if w.isEmpty then none else
  let r2 := r1.dropWhile isSpaceJS
  let ops := r2.takeWhile isOpChar
  if ops.isEmpty then none else
  opLoop w ops (r2.drop ops.length) ops.length

/-- Embedding of the WHERE condition regex match of the source. -/
def whereMatch (cond : String) : Option (String × String × String) :=
  searchFrom whereTryAt cond.data

/-- The optional WHERE group of the SELECT regex: whitespace, the keyword,
whitespace, then a greedy (possibly empty) dot-star capture. -/
def tryWhere (cs : List Char) : Option (List Char) := do
  let r1 ← dropSpaces1 cs
  let r2 ← dropCI "where".data r1
  let r3 ← dropSpaces1 r2
  some (r3.takeWhile isDotChar)

/-- After the FROM keyword: whitespace, the table word, then the optional
WHERE group. -/
def tailAfterFrom (cs : List Char) : Option (String × Option String) := do
  let r1 ← dropSpaces1 cs
  let (w, r2) := takeWord r1
  if w.isEmpty then none else
  some (String.mk w, (tryWhere r2).map String.mk)

/-- Whitespace then FROM, backtracking over the amount of whitespace
consumed before the keyword. -/
def fromLoop (cs : List Char) : Nat → Option (String × Option String)
  | 0 => none
  | k + 1 =>
    match dropCI "from".data (cs.drop (k + 1)) with
    | some r1 =>
      (match tailAfterFrom r1 with
       | some x => some x
       | none => fromLoop cs k)
    | none => fromLoop cs k

/-- The lazy dot-star of the SELECT regex: grow the column-spec capture one
character at a time, preferring the shortest take that lets the rest of the
pattern match. -/
def lazyLoop : List Char → List Char → Option (String × String × Option String)
  | xrev, [] =>
    match fromLoop [] 0 with
    | some (t, wo) => some (String.mk xrev.reverse, t, wo)
    | none => none
  | xrev, c :: cs =>
    match fromLoop (c :: cs) (countSpaces (c :: cs)) with
    | some (t, wo) => some (String.mk xrev.reverse, t, wo)
    | none => if isDotChar c then lazyLoop (c :: xrev) cs else none

/-- Backtracking over the first required whitespace run after SELECT. -/
def s1Loop (rest : List Char) : Nat → Option (String × String × Option String)
  | 0 => none
  | k + 1 =>
    match lazyLoop [] (rest.drop (k + 1)) with
    | some r => some r
    | none => s1Loop rest k

/-- One attempt of the SELECT regex at a fixed position. -/
def selectTryAt (cs : List Char) : Option (String × String × Option String) :=
  match dropCI "select".data cs with
  | none => none
  | some rest => s1Loop rest (countSpaces rest)

/-- Embedding of the SELECT regex match of the source: captures the raw
column spec, the table word, and the optional WHERE clause. -/
def selectMatch (q : String) : Option (String × String × Option String) :=
  searchFrom selectTryAt q.data

/-! ### JavaScript loose comparison on scalars

The WHERE switch compares with the loose JavaScript operators.  The
coercions below follow the ECMAScript rules restricted to the value kinds a
Scalar can hold (exponent and hex string numerals are not modelled; no
statement below depends on them). -/

/-- ToNumber on a string body: optional sign, digits with an optional dot.
none models NaN. -/
def strNumBody (cs : List Char) : Option ℚ :=
  let ip := cs.takeWhile Char.isDigit
  match cs.dropWhile Char.isDigit with
  | [] => if ip.isEmpty then none else some (digitsVal ip : ℚ)
  | '.' :: frac =>
    if frac.all Char.isDigit && !(ip.isEmpty && frac.isEmpty) then
      some ((digitsVal ip : ℚ) + (digitsVal frac : ℚ) / ((10 : ℚ) ^ frac.length))
    else none
  | _ => none

/-- ToNumber on a string: trim, empty is zero, sign then decimal body. -/
def strToNumber (s : String) : Option ℚ :=
  let t := jsTrim s
  if t = "" then some 0
  else
    match t.data with
    | '-' :: body => (strNumBody body).map (fun q => -q)
    | '+' :: body => strNumBody body
    | body => strNumBody body

/-- ToNumber on a scalar; none models NaN. -/
def jsToNumber : Scalar → Option ℚ
  | Scalar.null => some 0
  | Scalar.bool b => some (if b then 1 else 0)
  | Scalar.int n => some (n : ℚ)
  | Scalar.float q => some q
  | Scalar.text s => strToNumber s

/-- JavaScript loose equality on scalars. -/
def jsLooseEq : Scalar → Scalar → Bool
  | Scalar.null, Scalar.null => true
  | Scalar.null, _ => false
  | _, Scalar.null => false
  | Scalar.text s, Scalar.text t => s == t
  | a, b =>
    match jsToNumber a, jsToNumber b with
    | some x, some y => x == y
    | _, _ => false

/-- JavaScript relational less-than on scalars. -/
def jsLess : Scalar → Scalar → Bool
  | Scalar.text s, Scalar.text t => decide (s < t)
  | a, b =>
    match jsToNumber a, jsToNumber b with
    | some x, some y => decide (x < y)
    | _, _ => false

/-- JavaScript relational less-or-equal on scalars (false on NaN). -/
def jsLessEq : Scalar → Scalar → Bool
  | Scalar.text s, Scalar.text t => decide (¬t < s)
  | a, b =>
    match jsToNumber a, jsToNumber b with
    | some x, some y => decide (x ≤ y)
    | _, _ => false

/-- Embedding of SimpleSQL.evaluateWhere.  The out-of-range row access of
the source (undefined) cannot occur under the row-length invariant; it is
modelled by a null default. -/
def evaluateWhere (row : Row) (columns : List Column) (whereClause : String) : Bool :=
  match whereMatch whereClause with
  | none => true
  | some (columnName, operator, valueStr) =>
    match columns.findIdx? (fun col => strToLower col.name == strToLower columnName) with
    | none => true
    | some columnIndex =>
      let rowValue := row.getD columnIndex Scalar.null
      let compareValue := parseValue valueStr
      if operator = "=" then jsLooseEq rowValue compareValue
      else if operator = ">" then jsLess compareValue rowValue
      else if operator = "<" then jsLess rowValue compareValue
      else if operator = ">=" then jsLessEq compareValue rowValue
      else if operator = "<=" then jsLessEq rowValue compareValue
      else if operator = "!=" ∨ operator = "<>" then !jsLooseEq rowValue compareValue
      else true

/-! ### Statement handlers and the dispatcher -/

/-- Embedding of the column-definition split of SimpleSQL.createTable:
split on every comma, trim, split on whitespace, default type TEXT. -/
def parseColumnDefs (columnsStr : String) : List Column :=
  (splitComma columnsStr).map (fun col =>
    let parts := splitWS (jsTrim col)
    { name := parts.headD ""
      type := if parts.getD 1 "" = "" then "TEXT" else parts.getD 1 "" })

/-- Embedding of SimpleSQL.createTable. -/
def createTable (cat : Catalog) (query : String) :
    Except SqlError (List ResultSet) × Catalog :=
  match createMatch query with
  | none => (Except.error SqlError.invalidCreate, cat)
  | some (nm, columnsStr) =>
    let tableName := strToLower nm
    let columns := parseColumnDefs columnsStr
    (Except.ok [], catSet cat tableName { columns := columns, rows := [] })

/-- The forEach loop of SimpleSQL.insertInto: push each value set whose
arity matches, stopping with the mismatch error at the first failure.
The rows pushed before the failure stay pushed. -/
def applyValueSets (ncols : Nat) : List Row → List (List Scalar) →
    List Row × Option SqlError
  | rows, [] => (rows, none)
  | rows, values :: rest =>
    if values.length == ncols then applyValueSets ncols (rows ++ [values]) rest
    else (rows, some (SqlError.columnCountMismatch ncols values.length))

/-- Embedding of SimpleSQL.insertInto.  The source pushes rows onto the
live table object, so the partially extended table stays in the catalog
even when the loop throws. -/
def insertInto (cat : Catalog) (query : String) :
    Except SqlError (List ResultSet) × Catalog :=
  match insertMatch query with
  | none => (Except.error SqlError.invalidInsert, cat)
  | some (nm, valuesStr) =>
    let tableName := strToLower nm
    match catGet cat tableName with
    | none => (Except.error (SqlError.unknownTable tableName), cat)
    | some table =>
      let valuesSets := parseValuesSets valuesStr
      let res := applyValueSets table.columns.length table.rows valuesSets
      let cat2 := catSet cat tableName { table with rows := res.1 }
      match res.2 with
      | none => (Except.ok [], cat2)
      | some e => (Except.error e, cat2)

/-- Resolve the selected column names to indices, first unresolved name
raising the unknown-column error. -/
def colIndicesOf (columns : List Column) : List String → Except SqlError (List Nat)
  | [] => Except.ok []
  | colName :: rest =>
    match columns.findIdx? (fun col => strToLower col.name == strToLower colName) with
    | none => Except.error (SqlError.unknownColumn colName)
    | some i =>
      match colIndicesOf columns rest with
      | Except.error e => Except.error e
      | Except.ok is => Except.ok (i :: is)

/-- Embedding of SimpleSQL.select.  The catalog is never mutated.  An empty
WHERE capture is falsy in the source and skips filtering. -/
def select (cat : Catalog) (query : String) : Except SqlError (List ResultSet) :=
  match selectMatch query with
  | none => Except.error SqlError.unsupportedSelect
  | some (colsRaw, tnameRaw, whereOpt) =>
    let columnsStr := jsTrim colsRaw
    let tableName := strToLower tnameRaw
    match catGet cat tableName with
    | none => Except.error (SqlError.unknownTable tableName)
    | some table =>
      let rows :=
        match whereOpt with
        | some wc =>
          if wc = "" then table.rows
          else table.rows.filter (fun row => evaluateWhere row table.columns wc)
        | none => table.rows
      if columnsStr = "*" then
        Except.ok [{ columns := table.columns.map (fun col => col.name), values := rows }]
      else
        let selectedCols := (splitComma columnsStr).map jsTrim
        match colIndicesOf table.columns selectedCols with
        | Except.error e => Except.error e
        | Except.ok idxs =>
          Except.ok [{ columns := selectedCols
                       values := rows.map (fun row => idxs.map (fun i => row.getD i Scalar.null)) }]

/-- Embedding of SimpleSQL.dropTable. -/
def dropTable (cat : Catalog) (query : String) :
    Except SqlError (List ResultSet) × Catalog :=
  match dropMatch query with
  | none => (Except.error SqlError.invalidDrop, cat)
  | some nm =>
    let tableName := strToLower nm
    if (catGet cat tableName).isSome then (Except.ok [], catDelete cat tableName)
    else (Except.error (SqlError.unknownTable tableName), cat)

/-- Embedding of SimpleSQL.exec: dispatch by case-insensitive prefix of the
trimmed statement. -/
def exec (cat : Catalog) (query : String) :
    Except SqlError (List ResultSet) × Catalog :=
  let trimmed := strToLower (jsTrim query)
  if strLead trimmed "create table" then createTable cat query
  else if strLead trimmed "insert into" then insertInto cat query
  else if strLead trimmed "select" then (select cat query, cat)
  else if strLead trimmed "drop table" then dropTable cat query
  else if strLead trimmed "read_csv_auto(" || strLead trimmed "read_parquet(" then
    (Except.error SqlError.unsupportedFileRead, cat)
  else (Except.error SqlError.unsupportedQuery, cat)

/-! ### Invariants and reachability -/

/-- Every row of the table has exactly as many scalars as the table has
columns. -/
def rowsFit (t : Table) : Prop := ∀ r ∈ t.rows, r.length = t.columns.length

/-- The row-length invariant over the whole catalog. -/
def GoodCat (cat : Catalog) : Prop := ∀ p ∈ cat, rowsFit p.2

instance (t : Table) : Decidable (rowsFit t) :=
  inferInstanceAs (Decidable (∀ r ∈ t.rows, r.length = t.columns.length))

instance (cat : Catalog) : Decidable (GoodCat cat) :=
  inferInstanceAs (Decidable (∀ p ∈ cat, rowsFit p.2))

/-- Engine states reachable from the fresh empty catalog by exec calls. -/
inductive ReachableCat : Catalog → Prop
  | init : ReachableCat []
  | step (cat : Catalog) (q : String) : ReachableCat cat → ReachableCat (exec cat q).2

/-! ### Concrete statements used by the witnesses -/

/-- A single apostrophe as a string. -/
def sqStr : String := String.mk [quoteCh]

def stmtCreateAB : String := "CREATE TABLE t (a INT, b TEXT)"

def stmtInsertTwoTuples : String :=
  "INSERT INTO t VALUES (1," ++ sqStr ++ "x" ++ sqStr ++ "),(2," ++ sqStr ++ "y" ++ sqStr ++ ")"

def stmtSelectAll : String := "SELECT * FROM t"

def stmtSelectCsv : String :=
  "SELECT * FROM read_csv_auto(" ++ sqStr ++ "data.csv" ++ sqStr ++ ")"

def stmtSelectUrl : String :=
  "SELECT * FROM " ++ sqStr ++ "https://example.com/file.parquet" ++ sqStr

def condNeqOne : String := "a != 1"

def condNeqAngle : String := "a <> 1"

/-- A catalog holding one two-column table named t with no rows. -/
def colA : Column := { name := "a", type := "INT" }

def colB : Column := { name := "b", type := "TEXT" }

def catOneCol : Catalog := [("t", { columns := [colA], rows := [] })]

def catWithRow : Catalog := [("t", { columns := [colA], rows := [[Scalar.int 5]] })]

/-! ### Catalog lemmas -/

theorem catGet_catSet_self (cat : Catalog) (n : String) (t : Table) :
    catGet (catSet cat n t) n = some t := by
  induction cat with
  | nil => simp [catSet, catGet, List.find?]
  | cons p rest ih =>
    obtain ⟨m, u⟩ := p
    by_cases h : m = n
    · subst h
      simp [catSet, catGet, List.find?]
    · simp only [catSet, if_neg h]
      have hm : (m == n) = false := by
        simpa using h
      simpa [catGet, List.find?, hm] using ih

theorem catSet_mem {cat : Catalog} {n : String} {t : Table} {p : String × Table} :
    p ∈ catSet cat n t → p = (n, t) ∨ p ∈ cat := by
  induction cat with
  | nil => intro h; simp [catSet] at h; exact Or.inl h
  | cons q rest ih =>
    obtain ⟨m, u⟩ := q
    intro h
    by_cases hm : m = n
    · subst hm
      simp only [catSet, if_pos rfl] at h
      rcases List.mem_cons.mp h with h | h
      · exact Or.inl h
      · exact Or.inr (List.mem_cons_of_mem _ h)
    · simp only [catSet, if_neg hm] at h
      rcases List.mem_cons.mp h with h | h
      · exact Or.inr (h ▸ List.mem_cons_self _ _)
      · rcases ih h with h2 | h2
        · exact Or.inl h2
        · exact Or.inr (List.mem_cons_of_mem _ h2)

theorem catDelete_mem {cat : Catalog} {n : String} {p : String × Table} :
    p ∈ catDelete cat n → p ∈ cat := by
  induction cat with
  | nil => intro h; simp [catDelete] at h
  | cons q rest ih =>
    obtain ⟨m, u⟩ := q
    intro h
    by_cases hm : m = n
    · subst hm
      simp only [catDelete, if_pos rfl] at h
      exact List.mem_cons_of_mem _ h
    · simp only [catDelete, if_neg hm] at h
      rcases List.mem_cons.mp h with h | h
      · exact h ▸ List.mem_cons_self _ _
      · exact List.mem_cons_of_mem _ (ih h)

theorem catGet_mem {cat : Catalog} {n : String} {t : Table}
    (h : catGet cat n = some t) : ∃ m, (m, t) ∈ cat := by
  unfold catGet at h
  cases hf : cat.find? (fun p => p.1 == n) with
  | none => rw [hf] at h; cases h
  | some p =>
    rw [hf] at h
    obtain ⟨m, u⟩ := p
    simp at h
    subst h
    exact ⟨m, List.mem_of_find?_eq_some hf⟩

/-! ### Lemmas about the insert loop -/

theorem applyValueSets_rows {c : Nat} :
    ∀ (sets : List (List Scalar)) (rows : List Row),
      (∀ r ∈ rows, r.length = c) →
      ∀ r ∈ (applyValueSets c rows sets).1, r.length = c := by
  intro sets
  induction sets with
  | nil => intro rows h r hr; exact h r hr
  | cons v rest ih =>
    intro rows h r hr
    by_cases hv : v.length = c
    · simp only [applyValueSets, hv, beq_self_eq_true, if_pos] at hr
      refine ih (rows ++ [v]) ?_ r hr
      intro r2 hr2
      rcases List.mem_append.mp hr2 with h2 | h2
      · exact h r2 h2
      · simp at h2; subst h2; exact hv
    · have hb : (v.length == c) = false := by simpa using hv
      simp only [applyValueSets, hb, Bool.false_eq_true, if_false] at hr
      exact h r hr

theorem applyValueSets_err {c : Nat} :
    ∀ (sets : List (List Scalar)) (rows : List Row) (e : SqlError),
      (applyValueSets c rows sets).2 = some e →
      ∃ x y, e = SqlError.columnCountMismatch x y := by
  intro sets
  induction sets with
  | nil => intro rows e h; cases h
  | cons v rest ih =>
    intro rows e h
    by_cases hv : v.length = c
    · simp only [applyValueSets, hv, beq_self_eq_true, if_pos] at h
      exact ih (rows ++ [v]) e h
    · have hb : (v.length == c) = false := by simpa using hv
      simp only [applyValueSets, hb, Bool.false_eq_true, if_false] at h
      exact ⟨c, v.length, by cases h; rfl⟩

theorem applyValueSets_split {c : Nat} :
    ∀ (pre : List Row), (∀ r ∈ pre, r.length = c) →
    ∀ (bad : Row), bad.length ≠ c → ∀ (rest : List (List Scalar)) (rows : List Row),
      applyValueSets c rows (pre ++ bad :: rest)
        = (rows ++ pre, some (SqlError.columnCountMismatch c bad.length)) := by
  intro pre
  induction pre with
  | nil =>
    intro _ bad hbad rest rows
    have hb : (bad.length == c) = false := by simpa using hbad
    simp [applyValueSets, hb]
  | cons p pre2 ih =>
    intro hfit bad hbad rest rows
    have hp : p.length = c := hfit p (List.mem_cons_self _ _)
    have hrec := ih (fun r hr => hfit r (List.mem_cons_of_mem _ hr)) bad hbad rest (rows ++ [p])
    have hstep : applyValueSets c rows ((p :: pre2) ++ bad :: rest)
        = applyValueSets c (rows ++ [p]) (pre2 ++ bad :: rest) := by
      simp [applyValueSets, hp]
    rw [hstep, hrec, List.append_assoc]
    rfl

/-! ### Claim C1 -/

/-- Claim C1 (code bug).  The claim states that after
CREATE TABLE t (a INT, b TEXT), the statement
INSERT INTO t VALUES (1,(quoted x)),(2,(quoted y)) succeeds and a
subsequent SELECT * FROM t returns the two inserted rows in order.
In the code the INSERT regex strips the opening parenthesis of the first
tuple and the closing parenthesis of the last one, so the depth-aware
scanner splits at the comma inside the first tuple: the first scanned
tuple is the single value 1, its arity 1 mismatches the 2 columns, the
insert throws the column-count mismatch with expected 2 and got 1, and
the subsequent SELECT returns zero rows. -/
theorem c1_multi_tuple_insert_mismatch :
    (exec (exec [] stmtCreateAB).2 stmtInsertTwoTuples).1
      = Except.error (SqlError.columnCountMismatch 2 1) ∧
    (exec (exec (exec [] stmtCreateAB).2 stmtInsertTwoTuples).2 stmtSelectAll).1
      = Except.ok [{ columns := ["a", "b"], values := [] }] := by
  constructor
  · decide
  · decide

/-! ### Claim C3 -/

/-- Claim C3 (code bug).  The claim states that a WHERE condition of the
form column-exclamation-equals-literal filters rows like the
angle-bracket inequality does.  In the code the operator character class
of the WHERE regex contains only greater, less and equals, so a condition
using the exclamation-equals operator never matches the shape, the
permissive fallback includes every row, and the exclamation-equals case
of the switch is unreachable: on the row where a is 1, the condition
a != 1 keeps the row (true) although a <> 1 drops it (false). -/
theorem c3_neq_operator_dead :
    whereMatch condNeqOne = none ∧
    evaluateWhere [Scalar.int 1] [colA] condNeqOne = true ∧
    evaluateWhere [Scalar.int 1] [colA] condNeqAngle = false := by
  refine ⟨by decide, by decide, by decide⟩

/-! ### Claim C4 -/

/-- Claim C4, counterexample.  The claim states that a SELECT whose FROM
clause uses a function call such as read_csv_auto raises the distinct
unsupported-feature error.  In the code the SELECT regex matches that
statement (the word class matches read_csv_auto as a table name), so it
raises the table-not-found error instead — the very error the claim says
it must be distinct from. -/
theorem c4_read_csv_auto_counterexample :
    (exec [] stmtSelectCsv).1 = Except.error (SqlError.unknownTable "read_csv_auto") ∧
    SqlError.unknownTable "read_csv_auto" ≠ SqlError.unsupportedSelect := by
  refine ⟨by decide, by decide⟩

/-- Claim C4, amended.  For every SELECT statement whose text fails the
basic regex shape (for example a FROM clause that targets a quoted URL),
the handler raises the unsupported-feature guidance error, observably
distinct from the generic unsupported-query error and from the
table-not-found error.  A SELECT whose FROM clause is a function call
such as read_csv_auto, however, matches the shape with the function name
taken as the table name and raises the table-not-found error instead. -/
theorem c4_select_shape_fallback (cat : Catalog) (q : String)
    (h : selectMatch q = none) :
    select cat q = Except.error SqlError.unsupportedSelect ∧
    (∀ s, SqlError.unsupportedSelect ≠ SqlError.unknownTable s) ∧
    SqlError.unsupportedSelect ≠ SqlError.unsupportedQuery := by
  refine ⟨?_, ⟨fun s hs => SqlError.noConfusion hs, fun hs => SqlError.noConfusion hs⟩⟩
  unfold select
  rw [h]

/-- Witness for the amended claim C4 at the quoted-URL SELECT. -/
theorem c4_select_shape_fallback_witness :
    selectMatch stmtSelectUrl = none ∧
    (select [] stmtSelectUrl = Except.error SqlError.unsupportedSelect ∧
     (∀ s, SqlError.unsupportedSelect ≠ SqlError.unknownTable s) ∧
     SqlError.unsupportedSelect ≠ SqlError.unsupportedQuery) :=
  ⟨by decide, c4_select_shape_fallback [] stmtSelectUrl (by decide)⟩

/-! ### Claim C6 -/

/-- Claim C6 (confirmed).  Whenever the CREATE TABLE regex matches, the
handler succeeds with the empty result and the catalog maps the
lower-cased table name to a fresh empty table with the parsed column
list — regardless of what the catalog held before, so an existing table
of the same case-insensitive name is silently overwritten and its rows
are discarded. -/
theorem c6_create_table_overwrites (cat : Catalog) (q nm colsStr : String)
    (h : createMatch q = some (nm, colsStr)) :
    (createTable cat q).1 = Except.ok [] ∧
    catGet (createTable cat q).2 (strToLower nm)
      = some { columns := parseColumnDefs colsStr, rows := [] } := by
  unfold createTable
  rw [h]
  exact ⟨rfl, catGet_catSet_self cat (strToLower nm) _⟩

/-- Witness for claim C6: the catalog already holds a table t with one
row; creating table T succeeds silently and leaves t empty. -/
theorem c6_create_table_overwrites_witness :
    createMatch "create table T (a INT, b)" = some ("T", "a INT, b") ∧
    catGet catWithRow "t" = some { columns := [colA], rows := [[Scalar.int 5]] } ∧
    ((createTable catWithRow "create table T (a INT, b)").1 = Except.ok [] ∧
     catGet (createTable catWithRow "create table T (a INT, b)").2 (strToLower "T")
       = some { columns := parseColumnDefs "a INT, b", rows := [] }) :=
  ⟨by decide, by decide,
    c6_create_table_overwrites catWithRow "create table T (a INT, b)" "T" "a INT, b" (by decide)⟩

/-! ### Claim C7 -/

/-- Claim C7 (confirmed).  When the WHERE condition fails the
identifier-operator-value shape, or names a column the table does not
declare, the evaluator raises no error and treats every row as matching,
so filtering keeps every row of the table. -/
theorem c7_where_permissive_fallback (rows : List Row) (columns : List Column)
    (wc : String)
    (h : whereMatch wc = none ∨
      ∃ cn op v, whereMatch wc = some (cn, op, v) ∧
        columns.findIdx? (fun col => strToLower col.name == strToLower cn) = none) :
    rows.filter (fun row => evaluateWhere row columns wc) = rows := by
  have hall : ∀ row, evaluateWhere row columns wc = true := by
    intro row
    rcases h with h | ⟨cn, op, v, hm, hidx⟩
    · simp [evaluateWhere, h]
    · simp [evaluateWhere, hm, hidx]
  exact List.filter_eq_self.mpr (fun r _ => hall r)

/-- Witness for claim C7 at the condition true, which fails the shape. -/
theorem c7_where_permissive_fallback_witness :
    whereMatch "true" = none ∧
    [[Scalar.int 1], [Scalar.int 2]].filter
      (fun row => evaluateWhere row [colA] "true") = [[Scalar.int 1], [Scalar.int 2]] :=
  ⟨by decide,
    c7_where_permissive_fallback [[Scalar.int 1], [Scalar.int 2]] [colA] "true"
      (Or.inl (by decide))⟩

/-! ### Claim C5 -/

/-- Spec-side integer token body (spec section 3): one or more digits,
read structurally. -/
def specIsIntBody : List Char → Bool
  | [] => false
  | [c] => c.isDigit
  | c :: rest => c.isDigit && specIsIntBody rest

/-- Spec-side decimal token body (spec section 3): zero or more digits,
a dot, then one or more digits, read structurally. -/
def specIsFloatBody : List Char → Bool
  | [] => false
  | c :: rest =>
    if c = '.' then !rest.isEmpty && rest.all Char.isDigit
    else c.isDigit && specIsFloatBody rest

/-- Spec-side reading of the scalar inference order (spec section 3):
case-insensitive null, exact true or false, the integer pattern, the
decimal pattern, otherwise text, tried in exactly that order on a
trimmed token. -/
def specScalarOfToken (token : String) : Scalar :=
  if strToLower token = "null" then Scalar.null
  else if token = "true" then Scalar.bool true
  else if token = "false" then Scalar.bool false
  else if specIsIntBody (stripMinus token.data) then Scalar.int (parseIntLit token.data)
  else if specIsFloatBody (stripMinus token.data) then Scalar.float (parseFloatLit token.data)
  else Scalar.text token

theorem specIsIntBody_eq (l : List Char) :
    specIsIntBody l = (!l.isEmpty && l.all Char.isDigit) := by
  induction l with
  | nil => rfl
  | cons c rest ih =>
    cases rest with
    | nil => simp [specIsIntBody]
    | cons d rest2 =>
      rw [show specIsIntBody (c :: d :: rest2) = (c.isDigit && specIsIntBody (d :: rest2)) from rfl,
        ih]
      simp [Bool.and_assoc]

theorem specIsFloatBody_eq (l : List Char) :
    floatTail (l.dropWhile Char.isDigit) = specIsFloatBody l := by
  induction l with
  | nil => rfl
  | cons c rest ih =>
    by_cases hd : c.isDigit
    · have hdot : ¬c = '.' := by
        intro hc; subst hc; simp at hd
      rw [List.dropWhile_cons_of_pos hd, ih, specIsFloatBody]
      simp [hdot, hd]
    · have hd2 : ¬(Char.isDigit c = true) := hd
      rw [List.dropWhile_cons_of_neg hd2, floatTail, specIsFloatBody]
      by_cases hc : c = '.'
      · subst hc; simp
      · have : (c == '.') = false := by simpa using hc
        simp [hc, this, hd]

/-- Claim C5 (confirmed).  On every input the scalar parser of the code
computes exactly the spec-side inference on the trimmed token:
case-insensitive null, then exact true and false, then the integer
pattern, then the decimal pattern, and otherwise the token itself as
text, in that order. -/
theorem c5_scalar_inference_order (s : String) :
    parseValue s = specScalarOfToken (jsTrim s) := by
  unfold parseValue specScalarOfToken intLitTest floatLitTest
  rw [specIsIntBody_eq, ← specIsFloatBody_eq]

/-! ### Claim C2 -/

theorem lead_insert_not_create (s : String)
    (h : strLead s "insert into" = true) : strLead s "create table" = false := by
  unfold strLead at h ⊢
  have e1 : "insert into".data
      = ['i', 'n', 's', 'e', 'r', 't', ' ', 'i', 'n', 't', 'o'] := by decide
  have e2 : "create table".data
      = ['c', 'r', 'e', 'a', 't', 'e', ' ', 't', 'a', 'b', 'l', 'e'] := by decide
  rw [e1] at h
  rw [e2]
  cases hs : s.data with
  | nil => rw [hs] at h; exact absurd h (by decide)
  | cons c cs =>
    rw [hs] at h
    rw [leadMatches] at h
    have hc : c = 'i' := by
      have := (Bool.and_eq_true _ _).mp h
      exact eq_of_beq this.1
    subst hc
    rw [leadMatches]
    rw [show (('i' == 'c') = false) from by decide, Bool.false_and]

/-- When the trimmed lower-cased query starts with the insert keywords,
exec dispatches to insertInto. -/
theorem exec_eq_insertInto (cat : Catalog) (q : String)
    (h : strLead (strToLower (jsTrim q)) "insert into" = true) :
    exec cat q = insertInto cat q := by
  unfold exec
  simp only [lead_insert_not_create _ h, h]
  simp

/-- Claim C2 (confirmed).  For every INSERT whose regex match yields a
table that exists, if the scanned tuple list is a prefix of fitting
tuples followed by the first tuple of mismatched arity, exec raises the
column-count mismatch naming the expected and actual arity, and the
table keeps its prior rows followed by exactly the fitting prefix: the
bad tuple and everything after it are not stored. -/
theorem c2_insert_partial_commit (cat : Catalog) (q nm vs : String) (t : Table)
    (pre : List Row) (bad : Row) (rest : List (List Scalar))
    (hlead : strLead (strToLower (jsTrim q)) "insert into" = true)
    (hm : insertMatch q = some (nm, vs))
    (ht : catGet cat (strToLower nm) = some t)
    (hscan : parseValuesSets vs = pre ++ bad :: rest)
    (hpre : ∀ r ∈ pre, r.length = t.columns.length)
    (hbad : bad.length ≠ t.columns.length) :
    exec cat q
      = (Except.error (SqlError.columnCountMismatch t.columns.length bad.length),
         catSet cat (strToLower nm) { t with rows := t.rows ++ pre }) := by
  rw [exec_eq_insertInto cat q hlead]
  unfold insertInto
  rw [hm]
  dsimp only
  rw [ht]
  dsimp only
  rw [hscan, applyValueSets_split pre hpre bad hbad rest t.rows]

/-- Witness for claim C2: a one-column table, an insert whose scan
yields a fitting tuple then a two-value tuple; the fitting tuple is
committed and the statement fails with expected 1, got 2. -/
theorem c2_insert_partial_commit_witness :
    strLead (strToLower (jsTrim "insert into t values (1,(2,3))")) "insert into" = true ∧
    insertMatch "insert into t values (1,(2,3))" = some ("t", "1,(2,3)") ∧
    catGet catOneCol (strToLower "t") = some { columns := [colA], rows := [] } ∧
    parseValuesSets "1,(2,3)" = [[Scalar.int 1]] ++ [Scalar.int 2, Scalar.int 3] :: [] ∧
    exec catOneCol "insert into t values (1,(2,3))"
      = (Except.error (SqlError.columnCountMismatch
            (Table.columns { columns := [colA], rows := [] }).length
            ([Scalar.int 2, Scalar.int 3] : Row).length),
         catSet catOneCol (strToLower "t")
           { columns := [colA], rows := [] ++ [[Scalar.int 1]] }) :=
  ⟨by decide, by decide, by decide, by decide,
    c2_insert_partial_commit catOneCol "insert into t values (1,(2,3))" "t" "1,(2,3)"
      { columns := [colA], rows := [] } [[Scalar.int 1]] [Scalar.int 2, Scalar.int 3] []
      (by decide) (by decide) (by decide) (by decide) (by decide) (by decide)⟩

/-! ### Claim C8 -/

theorem goodCat_createTable {cat : Catalog} {q : String} (h : GoodCat cat) :
    GoodCat (createTable cat q).2 := by
  unfold createTable
  cases hm : createMatch q with
  | none => exact h
  | some pr =>
    obtain ⟨nm, colsStr⟩ := pr
    intro p hp
    rcases catSet_mem hp with hp2 | hp2
    · subst hp2; intro r hr; cases hr
    · exact h p hp2

theorem catGet_rowsFit {cat : Catalog} {n : String} {t : Table}
    (h : GoodCat cat) (hg : catGet cat n = some t) : rowsFit t := by
  obtain ⟨m, hmem⟩ := catGet_mem hg
  exact h (m, t) hmem

theorem goodCat_insertInto {cat : Catalog} {q : String} (h : GoodCat cat) :
    GoodCat (insertInto cat q).2 := by
  unfold insertInto
  cases hm : insertMatch q with
  | none => exact h
  | some pr =>
    obtain ⟨nm, vs⟩ := pr
    dsimp only
    cases hg : catGet cat (strToLower nm) with
    | none => exact h
    | some table =>
      have htab : rowsFit table := catGet_rowsFit h hg
      have hgood : GoodCat (catSet cat (strToLower nm)
          { table with rows :=
              (applyValueSets table.columns.length table.rows (parseValuesSets vs)).1 }) := by
        intro p hp
        rcases catSet_mem hp with hp2 | hp2
        · subst hp2
          intro r hr
          exact applyValueSets_rows (parseValuesSets vs) table.rows htab r hr
        · exact h p hp2
      dsimp only
      cases hres : (applyValueSets table.columns.length table.rows (parseValuesSets vs)).2 with
      | none => exact hgood
      | some e => exact hgood

theorem goodCat_dropTable {cat : Catalog} {q : String} (h : GoodCat cat) :
    GoodCat (dropTable cat q).2 := by
  unfold dropTable
  cases hm : dropMatch q with
  | none => exact h
  | some nm =>
    dsimp only
    by_cases hs : (catGet cat (strToLower nm)).isSome
    · simp only [hs, if_pos]
      exact fun p hp => h p (catDelete_mem hp)
    · simp only [hs, Bool.false_eq_true, if_false]
      exact h

/-- Claim C8 (confirmed).  Every exec call preserves the invariant that
each stored row has exactly as many scalars as its table has columns,
and therefore every engine state reachable from the fresh empty catalog
satisfies the invariant. -/
theorem c8_row_length_invariant :
    (∀ (cat : Catalog) (q : String), GoodCat cat → GoodCat (exec cat q).2) ∧
    (∀ cat : Catalog, ReachableCat cat → GoodCat cat) := by
  have hstep : ∀ (cat : Catalog) (q : String), GoodCat cat → GoodCat (exec cat q).2 := by
    intro cat q h
    unfold exec
    dsimp only
    split
    · exact goodCat_createTable h
    split
    · exact goodCat_insertInto h
    split
    · exact h
    split
    · exact goodCat_dropTable h
    split
    · exact h
    · exact h
  refine ⟨hstep, ?_⟩
  intro cat hr
  induction hr with
  | init => intro p hp; cases hp
  | step cat2 q _ ih => exact hstep cat2 q ih

/-- Witness for claim C8: one step from a concrete good catalog. -/
theorem c8_row_length_invariant_witness :
    GoodCat (exec catWithRow stmtInsertTwoTuples).2 :=
  c8_row_length_invariant.1 catWithRow stmtInsertTwoTuples (by decide)

/-! ### Claim C9 -/

/-- Claim C9 (confirmed).  Whenever exec raises any error other than the
column-count mismatch — a syntax error, an unknown table, an unknown
column, or an unsupported feature — the catalog is left exactly as it
was: only a mid-statement arity failure inside INSERT can change state
while failing. -/
theorem c9_non_mismatch_errors_preserve_catalog (cat : Catalog) (q : String)
    (e : SqlError) (h : (exec cat q).1 = Except.error e)
    (hnot : ∀ x y, e ≠ SqlError.columnCountMismatch x y) :
    (exec cat q).2 = cat := by
  revert h
  unfold exec
  dsimp only
  split
  · -- create table branch
    unfold createTable
    cases hm : createMatch q with
    | none => intro _; rfl
    | some pr => obtain ⟨nm, cs⟩ := pr; intro hx; cases hx
  split
  · -- insert branch
    unfold insertInto
    cases hm : insertMatch q with
    | none => intro _; rfl
    | some pr =>
      obtain ⟨nm, vs⟩ := pr
      dsimp only
      cases hg : catGet cat (strToLower nm) with
      | none => intro _; rfl
      | some table =>
        dsimp only
        cases hres : (applyValueSets table.columns.length table.rows (parseValuesSets vs)).2 with
        | none => intro hx; exact Except.noConfusion hx
        | some err =>
          intro hx
          have he : err = e := by
            simpa using hx
          obtain ⟨x, y, hxy⟩ := applyValueSets_err (parseValuesSets vs) table.rows err hres
          exact absurd (he ▸ hxy) (hnot x y)
  split
  · intro _; rfl
  split
  · -- drop branch
    unfold dropTable
    cases hm : dropMatch q with
    | none => intro _; rfl
    | some nm =>
      dsimp only
      by_cases hs : (catGet cat (strToLower nm)).isSome = true
      · rw [if_pos hs]
        intro hx; exact Except.noConfusion hx
      · rw [if_neg hs]
        intro _; rfl
  split
  · intro _; rfl
  · intro _; rfl

/-- Witness for claim C9: dropping a missing table errors and leaves the
empty catalog unchanged. -/
theorem c9_non_mismatch_errors_preserve_catalog_witness :
    (exec [] "drop table t").1 = Except.error (SqlError.unknownTable "t") ∧
    (exec [] "drop table t").2 = [] :=
  ⟨by decide,
    c9_non_mismatch_errors_preserve_catalog [] "drop table t"
      (SqlError.unknownTable "t") (by decide)
      (fun x y hxy => SqlError.noConfusion hxy)⟩

/-! ### Claim C10 -/

/-- A character with no special meaning to the value scanner: not
whitespace, not a quote, not a backslash, not a comma. -/
def plainChar (c : Char) : Bool :=
  !isSpaceJS c && !(c == quoteCh) && !(c == slashCh) && !(c == ',')

/-- The previous-character tracker after scanning a chunk. -/
def prevAfter (p : Option Char) : List Char → Option Char
  | [] => p
  | c :: rest => prevAfter (some c) rest

theorem plain_not_quote {c : Char} (h : plainChar c = true) : (c == quoteCh) = false := by
  unfold plainChar at h
  simp only [Bool.and_eq_true, Bool.not_eq_true'] at h
  exact h.1.1.2

theorem plain_not_slash {c : Char} (h : plainChar c = true) : (c == slashCh) = false := by
  unfold plainChar at h
  simp only [Bool.and_eq_true, Bool.not_eq_true'] at h
  exact h.1.2

theorem plain_not_space {c : Char} (h : plainChar c = true) : isSpaceJS c = false := by
  unfold plainChar at h
  simp only [Bool.and_eq_true, Bool.not_eq_true'] at h
  exact h.1.1.1

/-- Inside quotes, a non-quote character is simply appended and becomes
the new previous character. -/
theorem quoted_step (c : Char) (hc : (c == quoteCh) = false)
    (rest : List Char) (prev : Option Char) (cur : List Char) (vals : List Scalar) :
    parseValuesGo (c :: rest) prev true cur vals
      = parseValuesGo rest (some c) true (c :: cur) vals := by
  simp [parseValuesGo, hc]

/-- Inside quotes, a run of non-quote characters is appended in order. -/
theorem quoted_run (l : List Char) (hl : ∀ c ∈ l, (c == quoteCh) = false)
    (rest : List Char) (prev : Option Char) (cur : List Char) (vals : List Scalar) :
    parseValuesGo (l ++ rest) prev true cur vals
      = parseValuesGo rest (prevAfter prev l) true (l.reverse ++ cur) vals := by
  induction l generalizing prev cur with
  | nil => simp [prevAfter]
  | cons c l2 ih =>
    rw [List.cons_append, quoted_step c (hl c (List.mem_cons_self _ _)) _ prev cur vals,
      ih (fun d hd => hl d (List.mem_cons_of_mem _ hd)) (some c) (c :: cur)]
    simp [prevAfter, List.append_assoc]

/-- An unescaped quote toggles the quote flag and is skipped. -/
theorem go_toggle (c : Char) (hc : (c == quoteCh) = true) (rest : List Char)
    (prev : Option Char) (hp : (prev == some slashCh) = false)
    (inQ : Bool) (cur : List Char) (vals : List Scalar) :
    parseValuesGo (c :: rest) prev inQ cur vals
      = parseValuesGo rest (some c) (!inQ) cur vals := by
  simp [parseValuesGo, hc, hp]

/-- A quote right after a backslash does not toggle the flag and is kept
verbatim. -/
theorem go_escaped (rest : List Char) (cur : List Char) (vals : List Scalar) :
    parseValuesGo (quoteCh :: rest) (some slashCh) true cur vals
      = parseValuesGo rest (some quoteCh) true (quoteCh :: cur) vals := by
  have h1 : ((quoteCh == quoteCh) && !((some slashCh : Option Char) == some slashCh)) = false := by
    decide
  rw [parseValuesGo, h1]
  simp

theorem prevAfter_ne_slash (l : List Char) (hl : ∀ c ∈ l, (c == slashCh) = false) :
    ∀ p : Option Char, (p == some slashCh) = false →
      (prevAfter p l == some slashCh) = false := by
  induction l with
  | nil => intro p hp; exact hp
  | cons c l2 ih =>
    intro p hp
    refine ih (fun d hd => hl d (List.mem_cons_of_mem _ hd)) (some c) ?_
    have h1 : c ≠ slashCh := by
      simpa using hl c (List.mem_cons_self _ _)
    simp [h1]

theorem stripOuter_quoted (l : List Char) :
    stripOuterParens (String.mk (quoteCh :: l ++ [quoteCh]))
      = String.mk (quoteCh :: l ++ [quoteCh]) := by
  unfold stripOuterParens
  dsimp only
  have h1 : ¬((quoteCh :: l ++ [quoteCh]).headD ' ' = '(') := by
    rw [show (quoteCh :: l ++ [quoteCh]).headD ' ' = quoteCh from rfl]
    decide
  have h2 : (quoteCh :: l ++ [quoteCh]).getLast? = some quoteCh := by
    rw [show quoteCh :: l ++ [quoteCh] = (quoteCh :: l) ++ [quoteCh] from rfl]
    exact List.getLast?_concat _
  rw [if_neg h1]
  rw [h2]
  rw [if_neg (by decide : ¬((some quoteCh : Option Char) = some ')'))]

theorem dropWhile_no_space (l : List Char) (h : ∀ c ∈ l, isSpaceJS c = false) :
    l.dropWhile isSpaceJS = l := by
  cases l with
  | nil => rfl
  | cons c cs =>
    have hc := h c (List.mem_cons_self _ _)
    rw [List.dropWhile_cons_of_neg (by simp [hc])]

theorem jsTrim_no_space (l : List Char) (h : ∀ c ∈ l, isSpaceJS c = false) :
    jsTrim (String.mk l) = String.mk l := by
  unfold jsTrim
  rw [show (String.mk l).data = l from rfl]
  rw [dropWhile_no_space l h,
    dropWhile_no_space l.reverse (fun c hc => h c (List.mem_reverse.mp hc)),
    List.reverse_reverse]

theorem mem_stripMinus {c : Char} (hc : c ≠ '-') {l : List Char} (h : c ∈ l) :
    c ∈ stripMinus l := by
  cases l with
  | nil => cases h
  | cons d rest =>
    show c ∈ (if d = '-' then rest else d :: rest)
    by_cases hd : d = '-'
    · rw [if_pos hd]
      rcases List.mem_cons.mp h with h1 | h1
      · exact absurd (h1.trans hd) hc
      · exact h1
    · rw [if_neg hd]; exact h

theorem mem_dropWhile_not {p : Char → Bool} {c : Char} (hc : p c = false) :
    ∀ {l : List Char}, c ∈ l → c ∈ l.dropWhile p := by
  intro l
  induction l with
  | nil => intro h; cases h
  | cons d rest ih =>
    intro h
    by_cases hd : p d = true
    · rw [List.dropWhile_cons_of_pos hd]
      rcases List.mem_cons.mp h with h1 | h1
      · subst h1; rw [hd] at hc; cases hc
      · exact ih h1
    · rw [List.dropWhile_cons_of_neg hd]
      exact h

/-- A string containing a backslash and no whitespace falls through every
inference test of parseValue and comes back as text, unchanged. -/
theorem parseValue_text_of_slash (l : List Char) (hmem : slashCh ∈ l)
    (hns : ∀ c ∈ l, isSpaceJS c = false) :
    parseValue (String.mk l) = Scalar.text (String.mk l) := by
  have hv : jsTrim (String.mk l) = String.mk l := jsTrim_no_space l hns
  have h1 : ¬(strToLower (String.mk l) = "null") := by
    intro he
    have hd := congrArg String.data he
    rw [show (strToLower (String.mk l)).data = l.map Char.toLower from rfl] at hd
    have hm2 : Char.toLower slashCh ∈ l.map Char.toLower := List.mem_map_of_mem _ hmem
    rw [hd, show Char.toLower slashCh = slashCh from by decide] at hm2
    exact absurd hm2 (by decide)
  have h2 : ¬(String.mk l = "true") := by
    intro he
    have hd := congrArg String.data he
    rw [show (String.mk l).data = l from rfl] at hd
    rw [hd] at hmem
    exact absurd hmem (by decide)
  have h3 : ¬(String.mk l = "false") := by
    intro he
    have hd := congrArg String.data he
    rw [show (String.mk l).data = l from rfl] at hd
    rw [hd] at hmem
    exact absurd hmem (by decide)
  have hms : slashCh ∈ stripMinus l := mem_stripMinus (by decide) hmem
  have h4 : intLitTest l = false := by
    unfold intLitTest
    have hall : (stripMinus l).all Char.isDigit = false :=
      List.all_eq_false.mpr ⟨slashCh, hms, by decide⟩
    simp [hall]
  have h5 : floatLitTest l = false := by
    unfold floatLitTest
    have hdw : slashCh ∈ (stripMinus l).dropWhile Char.isDigit :=
      mem_dropWhile_not (by decide) hms
    cases hx : (stripMinus l).dropWhile Char.isDigit with
    | nil => rw [hx] at hdw; cases hdw
    | cons d rest =>
      rw [hx] at hdw
      rw [floatTail]
      rcases List.mem_cons.mp hdw with hh | hh
      · rw [← hh, show (slashCh == '.') = false from by decide]
        simp
      · have hall : rest.all Char.isDigit = false :=
          List.all_eq_false.mpr ⟨slashCh, hh, by decide⟩
        simp [hall]
  unfold parseValue
  rw [hv]
  dsimp only
  rw [if_neg h1, if_neg h2, if_neg h3]
  rw [h4, h5]
  simp

/-- Claim C10 (confirmed).  For every quoted literal whose body is plain
characters around a backslash-escaped apostrophe, the scanner does not
treat the escaped apostrophe as the closing quote, strips only the two
delimiting apostrophes, and keeps both the backslash and the apostrophe
verbatim in the resulting text value: no unescaping is performed. -/
theorem c10_escaped_quote_preserved (a b : List Char)
    (ha : ∀ c ∈ a, plainChar c = true) (hb : ∀ c ∈ b, plainChar c = true) :
    parseValues (String.mk (quoteCh :: (a ++ slashCh :: quoteCh :: b) ++ [quoteCh]))
      = [Scalar.text (String.mk (a ++ slashCh :: quoteCh :: b))] := by
  have haq : ∀ c ∈ a, (c == quoteCh) = false := fun c hc => plain_not_quote (ha c hc)
  have hbq : ∀ c ∈ b, (c == quoteCh) = false := fun c hc => plain_not_quote (hb c hc)
  have hbs : ∀ c ∈ b, (c == slashCh) = false := fun c hc => plain_not_slash (hb c hc)
  have hnos : ∀ c ∈ a ++ slashCh :: quoteCh :: b, isSpaceJS c = false := by
    intro c hc
    rcases List.mem_append.mp hc with h1 | h1
    · exact plain_not_space (ha c h1)
    · rcases List.mem_cons.mp h1 with h2 | h2
      · rw [h2]; decide
      · rcases List.mem_cons.mp h2 with h3 | h3
        · rw [h3]; decide
        · exact plain_not_space (hb c h3)
  have hmem : slashCh ∈ a ++ slashCh :: quoteCh :: b :=
    List.mem_append.mpr (Or.inr (List.mem_cons_self _ _))
  unfold parseValues
  rw [stripOuter_quoted]
  rw [show (String.mk (quoteCh :: (a ++ slashCh :: quoteCh :: b) ++ [quoteCh])).data
      = quoteCh :: (a ++ slashCh :: quoteCh :: b) ++ [quoteCh] from rfl]
  rw [List.cons_append]
  rw [go_toggle quoteCh (by decide) _ none (by decide) false [] [], Bool.not_false]
  rw [List.append_assoc]
  rw [show (slashCh :: quoteCh :: b) ++ [quoteCh] = slashCh :: quoteCh :: (b ++ [quoteCh])
      from rfl]
  rw [quoted_run a haq _ (some quoteCh) [] []]
  rw [quoted_step slashCh (by decide) _ _ _ _]
  rw [go_escaped]
  rw [quoted_run b hbq [quoteCh] (some quoteCh) _ []]
  rw [go_toggle quoteCh (by decide) []
    (prevAfter (some quoteCh) b)
    (prevAfter_ne_slash b hbs (some quoteCh) (by decide)) true _ _, Bool.not_true]
  rw [parseValuesGo]
  have hrev : (b.reverse ++ (quoteCh :: slashCh :: (a.reverse ++ []))).reverse
      = a ++ slashCh :: quoteCh :: b := by
    simp
  rw [hrev, jsTrim_no_space _ hnos]
  have hne : String.mk (a ++ slashCh :: quoteCh :: b) ≠ "" := by
    intro he
    have hd := congrArg String.data he
    rw [show (String.mk (a ++ slashCh :: quoteCh :: b)).data
        = a ++ slashCh :: quoteCh :: b from rfl] at hd
    simp at hd
  rw [if_pos hne]
  rw [parseValue_text_of_slash _ hmem hnos]
  rfl

/-- Witness for claim C10 on the literal a-backslash-apostrophe-b. -/
theorem c10_escaped_quote_preserved_witness :
    (∀ c ∈ ['a'], plainChar c = true) ∧
    parseValues (String.mk (quoteCh :: (['a'] ++ slashCh :: quoteCh :: ['b']) ++ [quoteCh]))
      = [Scalar.text (String.mk (['a'] ++ slashCh :: quoteCh :: ['b']))] :=
  ⟨by decide, c10_escaped_quote_preserved ['a'] ['b'] (by decide) (by decide)⟩

end SimpleSQL
